import Mathlib

/-!
# Chat analytics service: circuit breaker, metrics and ingest queue

A shallow embedding of `section-2-chat-analytics/internal/chatanalytics`
(`circuit_breaker.go`, `metrics.go`, `service.go`, `handlers.go`, `models.go`).

Conventions of the embedding.

* Go's `int64` / `atomic.Int64` values are integers; every `Add` wraps to the
  signed 64-bit range through `add64`.
* `time.Time` is an integer number of nanoseconds since the Unix epoch,
  `time.Duration` an integer number of nanoseconds.  Every reading of the clock
  (`time.Now`, `time.Since`) is an explicit argument of the function that reads it.
* A Go `error` is `Option GoError`: `none` is `nil`, `some msg` an error with
  message `msg`.
* A `func() error` closure is a function on an explicit world `σ` (everything the
  closure may read or write) returning its error and the new world.
-/

namespace ChatAnalytics

/-! ## Machine integers and time -/

/-- Smallest `int64`. -/
def minInt64 : Int := -9223372036854775808

/-- Largest `int64`. -/
def maxInt64 : Int := 9223372036854775807

/-- Two's complement wrap-around of an integer to the signed 64-bit range. -/
def wrap64 (x : Int) : Int :=
  (x + 9223372036854775808) % 18446744073709551616 - 9223372036854775808

/-- The value stored by `atomic.Int64.Add(delta)` on a counter holding `x`. -/
def add64 (x delta : Int) : Int := wrap64 (x + delta)

/-- Membership in the `int64` range. -/
def InInt64 (x : Int) : Prop := minInt64 ≤ x ∧ x ≤ maxInt64

instance (x : Int) : Decidable (InInt64 x) :=
  inferInstanceAs (Decidable (minInt64 ≤ x ∧ x ≤ maxInt64))

/-- Go's `error` values, identified by their message. -/
abbrev GoError := String

/-- The zero `time.Time` (January 1, year 1, 00:00:00 UTC) in Unix nanoseconds. -/
def zeroTime : Int := -62135596800 * 1000000000

/-- The value of `time.Since(t)` read at clock value `now`: the difference
`now - t`, saturated to the range of `time.Duration` as `Time.Sub` does. -/
def Since (now t : Int) : Int :=
  if now - t < minInt64 then minInt64
  else if now - t > maxInt64 then maxInt64
  else now - t

/-- The method `Duration.Milliseconds()`: the duration in whole milliseconds,
truncated toward zero. -/
def Milliseconds (d : Int) : Int := Int.tdiv d 1000000

/-! ## circuit_breaker.go -/

/-- Constant `StateClosed` (circuit_breaker.go, line 11). -/
def StateClosed : Int := 0

/-- Constant `StateOpen` (circuit_breaker.go, line 12). -/
def StateOpen : Int := 1

/-- Constant `StateHalfOpen` (circuit_breaker.go, line 13). -/
def StateHalfOpen : Int := 2

/-- The fields of `CircuitBreaker` (the mutex guarding `lastFailTime` has no value). -/
structure CircuitBreaker where
  maxFailures : Int
  resetTimeout : Int
  failures : Int
  state : Int
  lastFailTime : Int
deriving DecidableEq, Repr

/-- Function `NewCircuitBreaker` (lines 25-32): zero failures, zero `lastFailTime`,
state Closed. -/
def NewCircuitBreaker (maxFailures resetTimeout : Int) : CircuitBreaker :=
  { maxFailures := maxFailures
    resetTimeout := resetTimeout
    failures := 0
    state := StateClosed
    lastFailTime := zeroTime }

/-- What one `Call` leaves behind: the breaker, the returned error and the world
of the wrapped operation. -/
structure CallResult (σ : Type) where
  cb : CircuitBreaker
  err : Option GoError
  world : σ

/-- The part of `Call` from `err := fn()` on (lines 49-72).  `state` is the local
variable loaded at the start of `Call`, `cb` the breaker as stored when `fn` is
invoked, `tNow` the reading of `time.Now()` taken when `fn` fails. -/
def callRun {σ : Type} (state : Int) (cb : CircuitBreaker) (tNow : Int)
    (fn : σ → Option GoError × σ) (w : σ) : CallResult σ :=
  match fn w with
  | (some e, w1) =>
    let cb1 := { cb with failures := add64 cb.failures 1 }
    let cb2 := { cb1 with lastFailTime := tNow }
    let cb3 := if cb2.failures ≥ cb2.maxFailures then { cb2 with state := StateOpen } else cb2
    { cb := cb3, err := some e, world := w1 }
  | (none, w1) =>
    let cb1 := if state = StateHalfOpen then
        { cb with failures := 0, state := StateClosed } else cb
    let cb2 := if state = StateClosed then { cb1 with failures := 0 } else cb1
    { cb := cb2, err := none, world := w1 }

/-- Method `CircuitBreaker.Call` (lines 34-73).  `tSince` is the clock value at
which `time.Since` is evaluated (only read when the loaded state is Open), `tNow` the
clock value stored as `lastFailTime` when the operation fails. -/
def Call {σ : Type} (cb : CircuitBreaker) (tSince tNow : Int)
    (fn : σ → Option GoError × σ) (w : σ) : CallResult σ :=
  let state := cb.state
  if state = StateOpen then
    let elapsed := Since tSince cb.lastFailTime
    if elapsed > cb.resetTimeout then
      callRun state { cb with state := StateHalfOpen } tNow fn w
    else
      { cb := cb, err := some "circuit breaker open", world := w }
  else
    callRun state cb tNow fn w

/-- Method `CircuitBreaker.State` (lines 75-77). -/
def CircuitBreaker.State (cb : CircuitBreaker) : Int := cb.state

/-- One sequential `Call`: its two clock readings and the wrapped operation. -/
structure Step (σ : Type) where
  tSince : Int
  tNow : Int
  fn : σ → Option GoError × σ

/-- The breaker, the world and the errors returned so far (oldest first). -/
structure Run (σ : Type) where
  cb : CircuitBreaker
  world : σ
  errs : List (Option GoError)

/-- Perform one more `Call` after a run. -/
def Run.call {σ : Type} (r : Run σ) (s : Step σ) : Run σ :=
  let c := Call r.cb s.tSince s.tNow s.fn r.world
  { cb := c.cb, world := c.world, errs := r.errs ++ [c.err] }

/-- A sequence of `Call`s performed one after another on one breaker. -/
def runCalls {σ : Type} (cb : CircuitBreaker) (steps : List (Step σ)) (w : σ) : Run σ :=
  steps.foldl Run.call { cb := cb, world := w, errs := [] }

/-- The operations of `steps` invoked one after another with no breaker in between:
the results they return and the world they leave. -/
def invokeAll {σ : Type} (steps : List (Step σ)) (w : σ) : List (Option GoError) × σ :=
  steps.foldl (fun acc s => (acc.1 ++ [(s.fn acc.2).1], (s.fn acc.2).2)) ([], w)

/-- An operation that counts its invocations in the world and returns `r`. -/
def countingOp (r : Option GoError) : Nat → Option GoError × Nat :=
  fun k => (r, k + 1)

/-- A step at clock value `t` whose operation counts its invocations and returns `r`. -/
def stepAt (t : Int) (r : Option GoError) : Step Nat :=
  { tSince := t, tNow := t, fn := countingOp r }


/-! ## Runs of consecutive failures -/

/-- The failure flag of every returned result, oldest first. -/
def failFlags (rs : List (Option GoError)) : List Bool := rs.map Option.isSome

/-- The results contain `n` consecutive failures somewhere. -/
def HasFailRun (n : Nat) (rs : List (Option GoError)) : Prop :=
  List.replicate n true <:+: failFlags rs

instance (n : Nat) (rs : List (Option GoError)) : Decidable (HasFailRun n rs) :=
  inferInstanceAs (Decidable (List.replicate n true <:+: failFlags rs))

/-- The number of consecutive failures at the end of the results. -/
def failStreak (rs : List (Option GoError)) : Nat :=
  ((failFlags rs).reverse.takeWhile id).length

/-! ## metrics.go -/

/-- Go's `/` on `int64`: `none` when the divisor is zero (the run-time panic),
otherwise the quotient truncated toward zero, wrapped to 64 bits. -/
def div64 (a b : Int) : Option Int :=
  if b = 0 then none else some (wrap64 (Int.tdiv a b))

/-- The counters of `Metrics`; `&Metrics{}` is the default value, all zero. -/
structure Metrics where
  requestsTotal : Int := 0
  errorsTotal : Int := 0
  nlpCallsTotal : Int := 0
  nlpErrorsTotal : Int := 0
  dbWritesTotal : Int := 0
  queueDepth : Int := 0
  activeWorkers : Int := 0
  latencySum : Int := 0
  latencyCount : Int := 0
deriving DecidableEq, Repr

/-- Method `RecordRequest` (metrics.go, lines 20-24). -/
def Metrics.RecordRequest (m : Metrics) (duration : Int) : Metrics :=
  let m1 := { m with requestsTotal := add64 m.requestsTotal 1 }
  let m2 := { m1 with latencySum := add64 m1.latencySum (Milliseconds duration) }
  { m2 with latencyCount := add64 m2.latencyCount 1 }

/-- Method `RecordError` (lines 26-28). -/
def Metrics.RecordError (m : Metrics) : Metrics :=
  { m with errorsTotal := add64 m.errorsTotal 1 }

/-- Method `RecordNLPCall` (lines 30-35). -/
def Metrics.RecordNLPCall (m : Metrics) (success : Bool) : Metrics :=
  let m1 := { m with nlpCallsTotal := add64 m.nlpCallsTotal 1 }
  if !success then { m1 with nlpErrorsTotal := add64 m1.nlpErrorsTotal 1 } else m1

/-- Method `RecordDBWrite` (lines 37-39). -/
def Metrics.RecordDBWrite (m : Metrics) : Metrics :=
  { m with dbWritesTotal := add64 m.dbWritesTotal 1 }

/-- Method `GetAvgLatency` (lines 41-47); `none` would be a division by zero. -/
def Metrics.GetAvgLatency (m : Metrics) : Option Int :=
  let count := m.latencyCount
  if count = 0 then some 0
  else div64 m.latencySum count

/-- The metrics after `RecordRequest` is called once for every duration of `ds`,
in order. -/
def recordRequests (m : Metrics) (ds : List Int) : Metrics :=
  ds.foldl Metrics.RecordRequest m

/-- Every counter that the record functions touch is at least its earlier value. -/
def CountersLe (m m1 : Metrics) : Prop :=
  m.requestsTotal ≤ m1.requestsTotal ∧ m.errorsTotal ≤ m1.errorsTotal ∧
  m.nlpCallsTotal ≤ m1.nlpCallsTotal ∧ m.nlpErrorsTotal ≤ m1.nlpErrorsTotal ∧
  m.dbWritesTotal ≤ m1.dbWritesTotal ∧ m.latencySum ≤ m1.latencySum ∧
  m.latencyCount ≤ m1.latencyCount

instance (m m1 : Metrics) : Decidable (CountersLe m m1) :=
  inferInstanceAs (Decidable (
    m.requestsTotal ≤ m1.requestsTotal ∧ m.errorsTotal ≤ m1.errorsTotal ∧
    m.nlpCallsTotal ≤ m1.nlpCallsTotal ∧ m.nlpErrorsTotal ≤ m1.nlpErrorsTotal ∧
    m.dbWritesTotal ≤ m1.dbWritesTotal ∧ m.latencySum ≤ m1.latencySum ∧
    m.latencyCount ≤ m1.latencyCount))

/-! ## models.go -/

/-- Struct `Message` (models.go, lines 5-9). -/
structure Message where
  BotID : String
  Content : String
  Timestamp : Int
deriving DecidableEq, Repr

/-- Struct `ProcessedMessage` (lines 11-15); the field `Message` is the embedded
struct.  `NLPScore` only ever holds the literals `0.0` and `0.85`, kept as rationals. -/
structure ProcessedMessage where
  Message : Message
  NLPSentiment : String
  NLPScore : ℚ
deriving DecidableEq

/-! ## service.go -/

/-- The sequential part of `Service`: `queue` is the content of the buffered channel
(oldest first) and `queueCap` its capacity.  The cancellation context and the wait
group only matter to the goroutines and carry no value here. -/
structure Service where
  queue : List Message
  queueCap : Nat
  cb : CircuitBreaker
  metrics : Metrics
  workerCount : Int

/-- Function `NewService` (service.go, lines 21-32): an empty queue, a breaker with
threshold 50 and a 30 s reset timeout, zero metrics.  `make(chan Message, queueSize)`
needs a non-negative size, so the size is a natural number. -/
def NewService (workerCount : Int) (queueSize : Nat) : Service :=
  { queue := []
    queueCap := queueSize
    cb := NewCircuitBreaker 50 (30 * 1000000000)
    metrics := {}
    workerCount := workerCount }

/-- Method `simulateNLPCall` (lines 78-88); `unixNano` is the reading
`time.Now().UnixNano()` that decides the injected failure (the sleep before it
changes no state).  Go's `%` truncates. -/
def simulateNLPCall (unixNano : Int) (msg : ProcessedMessage) :
    Option GoError × ProcessedMessage :=
  if Int.tmod unixNano 100 < 5 then (some "nlp api error", msg)
  else (none, { msg with NLPSentiment := "positive", NLPScore := 0.85 })

/-- Method `simulateDBWrite` (lines 90-93): after the sleep, one `RecordDBWrite`. -/
def simulateDBWrite (s : Service) (_msg : ProcessedMessage) : Service :=
  { s with metrics := s.metrics.RecordDBWrite }

/-- The clock readings of one processing cycle: the two of `Call` and the one of
`simulateNLPCall`. -/
structure ProcessClock where
  cbSince : Int
  nlpNano : Int
  cbNow : Int

/-- The service after one processing cycle, the error `cb.Call` returned, and the
record handed to `simulateDBWrite`. -/
structure ProcessResult where
  service : Service
  err : Option GoError
  written : ProcessedMessage

/-- Method `processMessage` (lines 60-76). -/
def processMessage (s : Service) (msg : Message) (clk : ProcessClock) : ProcessResult :=
  let processed : ProcessedMessage := { Message := msg, NLPSentiment := "", NLPScore := 0 }
  let c := Call s.cb clk.cbSince clk.cbNow (simulateNLPCall clk.nlpNano) processed
  let s1 := { s with cb := c.cb }
  match c.err with
  | some e =>
    let s2 := { s1 with metrics := s1.metrics.RecordNLPCall false }
    let processed1 := { c.world with NLPSentiment := "unknown", NLPScore := 0 }
    { service := simulateDBWrite s2 processed1, err := some e, written := processed1 }
  | none =>
    let s2 := { s1 with metrics := s1.metrics.RecordNLPCall true }
    { service := simulateDBWrite s2 c.world, err := none, written := c.world }

/-! ## handlers.go -/

/-- What the handler reads of the request: the method and the outcome of decoding
the JSON body (`none` when decoding fails). -/
structure Request where
  Method : String
  Body : Option Message

/-- The status code and the body written to the `ResponseWriter`. -/
structure Response where
  status : Nat
  body : String
deriving DecidableEq, Repr

/-- The response written by `http.Error(w, msg, code)`. -/
def httpError (msg : String) (code : Nat) : Response :=
  { status := code, body := msg ++ "\n" }

/-- The clock readings of `IngestHandler`: on entry, when a missing timestamp is
filled in, and when `time.Since(start)` is taken. -/
structure IngestClock where
  start : Int
  stamp : Int
  done : Int

/-- Method `IngestHandler` (handlers.go, lines 10-46) with no receiver waiting on the
channel: the non-blocking send succeeds exactly when the buffer has room. -/
def IngestHandler (s : Service) (r : Request) (clk : IngestClock) : Service × Response :=
  let start := clk.start
  if r.Method ≠ "POST" then
    (s, httpError "Method not allowed" 405)
  else
    match r.Body with
    | none =>
      ({ s with metrics := s.metrics.RecordError }, httpError "Invalid payload" 400)
    | some msg =>
      if msg.BotID = "" ∨ msg.Content = "" then
        ({ s with metrics := s.metrics.RecordError },
          httpError "BotID and Content are required" 400)
      else
        let msg1 := if msg.Timestamp = zeroTime then { msg with Timestamp := clk.stamp } else msg
        if s.queue.length < s.queueCap then
          let s1 := { s with queue := s.queue ++ [msg1] }
          let s2 := { s1 with metrics :=
            { s1.metrics with queueDepth := add64 s1.metrics.queueDepth 1 } }
          let s3 := { s2 with metrics := s2.metrics.RecordRequest (Since clk.done start) }
          (s3, { status := 202, body := "\x7b\"status\":\"accepted\"\x7d\n" })
        else
          ({ s with metrics := s.metrics.RecordError }, httpError "Queue full" 429)

/-- A request is a valid submission: a POST whose body decodes to a message with a
non-empty bot id and a non-empty content. -/
def ValidSubmit (r : Request) : Prop :=
  r.Method = "POST" ∧ ∃ msg, r.Body = some msg ∧ msg.BotID ≠ "" ∧ msg.Content ≠ ""

instance (r : Request) : Decidable (ValidSubmit r) :=
  match h : r.Body with
  | none => isFalse (fun hv => by
      obtain ⟨_, msg, hb, _⟩ := hv
      rw [h] at hb
      exact Option.noConfusion hb)
  | some msg =>
    decidable_of_iff (r.Method = "POST" ∧ msg.BotID ≠ "" ∧ msg.Content ≠ "")
      ⟨fun hv => ⟨hv.1, msg, h, hv.2⟩, fun hv => by
        obtain ⟨hm, msg1, hb, hrest⟩ := hv
        rw [h] at hb
        cases hb
        exact ⟨hm, hrest⟩⟩

/-- Requests handled one after another, with the responses in order. -/
def submitAll (s : Service) (reqs : List (Request × IngestClock)) : Service × List Response :=
  reqs.foldl (fun acc p =>
    ((IngestHandler acc.1 p.1 p.2).1, acc.2 ++ [(IngestHandler acc.1 p.1 p.2).2])) (s, [])

/-- Method `MetricsHandler` (lines 48-63): the JSON object it writes, as its
key-value pairs; `none` if computing a value panics. -/
def MetricsHandler (s : Service) : Option (List (String × Int)) :=
  match s.metrics.GetAvgLatency with
  | none => none
  | some avg =>
    some [ ("requests_total", s.metrics.requestsTotal),
           ("errors_total", s.metrics.errorsTotal),
           ("nlp_calls_total", s.metrics.nlpCallsTotal),
           ("nlp_errors_total", s.metrics.nlpErrorsTotal),
           ("db_writes_total", s.metrics.dbWritesTotal),
           ("queue_depth", s.metrics.queueDepth),
           ("active_workers", s.metrics.activeWorkers),
           ("avg_latency_ms", avg),
           ("circuit_breaker_state", s.cb.State) ]

/-- A POST carrying a message with the given bot id, content "hi" and no timestamp. -/
def post (bot : String) : Request × IngestClock :=
  ({ Method := "POST", Body := some { BotID := bot, Content := "hi", Timestamp := zeroTime } },
    { start := 1000, stamp := 1000, done := 2000 })

/-! ## Lemmas -/

theorem wrap64_eq_self {x : Int} (h : InInt64 x) : wrap64 x = x := by
  unfold InInt64 minInt64 maxInt64 at h
  unfold wrap64
  omega

theorem wrap64_inInt64 (x : Int) : InInt64 (wrap64 x) := by
  unfold InInt64 minInt64 maxInt64 wrap64
  omega


theorem add64_one_ne (x : Int) : add64 x 1 ≠ x := by
  unfold add64 wrap64
  omega

theorem add64_eq_add {x d : Int} (h : InInt64 (x + d)) : add64 x d = x + d :=
  wrap64_eq_self h

theorem failFlags_concat (rs : List (Option GoError)) (r : Option GoError) :
    failFlags (rs ++ [r]) = failFlags rs ++ [r.isSome] := by
  simp [failFlags]

theorem failStreak_nil : failStreak [] = 0 := rfl

theorem failStreak_concat_none (rs : List (Option GoError)) :
    failStreak (rs ++ [none]) = 0 := by
  simp [failStreak, failFlags]

theorem failStreak_concat_some (rs : List (Option GoError)) (e : GoError) :
    failStreak (rs ++ [some e]) = failStreak rs + 1 := by
  simp [failStreak, failFlags, List.takeWhile_cons]

theorem replicate_suffix_iff_streak (rs : List (Option GoError)) :
    ∀ n : Nat, List.replicate n true <:+ failFlags rs ↔ n ≤ failStreak rs := by
  induction rs using List.reverseRecOn with
  | nil =>
    intro n
    cases n with
    | zero => simp [failFlags]
    | succ m => simp [failFlags, failStreak, List.replicate_succ]
  | append_singleton rs r ih =>
    intro n
    cases n with
    | zero => simp
    | succ m =>
      rw [failFlags_concat, List.suffix_concat_iff, List.replicate_succ']
      constructor
      · rintro (h | ⟨t, ht, hsuf⟩)
        · simp at h
        · obtain ⟨h1, h2⟩ := List.append_inj' ht rfl
          cases r with
          | none => simp at h2
          | some e =>
            rw [failStreak_concat_some]
            rw [← h1] at hsuf
            have := (ih m).1 hsuf
            omega
      · intro h
        cases r with
        | none => rw [failStreak_concat_none] at h; omega
        | some e =>
          rw [failStreak_concat_some] at h
          right
          exact ⟨List.replicate m true, by simp, (ih m).2 (by omega)⟩

theorem hasFailRun_concat (n : Nat) (rs : List (Option GoError)) (r : Option GoError) :
    HasFailRun n (rs ++ [r]) ↔ n ≤ failStreak (rs ++ [r]) ∨ HasFailRun n rs := by
  unfold HasFailRun
  rw [← replicate_suffix_iff_streak, failFlags_concat, List.infix_concat_iff]

theorem runCalls_concat {σ : Type} (cb : CircuitBreaker) (steps : List (Step σ))
    (s : Step σ) (w : σ) :
    runCalls cb (steps ++ [s]) w = (runCalls cb steps w).call s := by
  simp [runCalls, List.foldl_append]

theorem invokeAll_concat {σ : Type} (steps : List (Step σ)) (s : Step σ) (w : σ) :
    invokeAll (steps ++ [s]) w =
      ((invokeAll steps w).1 ++ [(s.fn (invokeAll steps w).2).1],
        (s.fn (invokeAll steps w).2).2) := by
  simp [invokeAll, List.foldl_append]


theorem Call_of_not_open {σ : Type} (cb : CircuitBreaker) (tSince tNow : Int)
    (fn : σ → Option GoError × σ) (w : σ) (h : cb.state ≠ StateOpen) :
    Call cb tSince tNow fn w = callRun cb.state cb tNow fn w := by
  simp [Call, h]

theorem Call_closed_fail {σ : Type} (cb : CircuitBreaker) (tSince tNow : Int)
    (fn : σ → Option GoError × σ) (w : σ) (e : GoError) (w1 : σ)
    (h : cb.state = StateClosed) (hfn : fn w = (some e, w1)) :
    Call cb tSince tNow fn w =
      { cb := if add64 cb.failures 1 ≥ cb.maxFailures then
            { cb with failures := add64 cb.failures 1, lastFailTime := tNow, state := StateOpen }
          else { cb with failures := add64 cb.failures 1, lastFailTime := tNow }
        err := some e
        world := w1 } := by
  have hne : cb.state ≠ StateOpen := by rw [h]; decide
  rw [Call_of_not_open cb tSince tNow fn w hne]
  simp only [callRun, hfn]

theorem Call_closed_ok {σ : Type} (cb : CircuitBreaker) (tSince tNow : Int)
    (fn : σ → Option GoError × σ) (w : σ) (w1 : σ)
    (h : cb.state = StateClosed) (hfn : fn w = (none, w1)) :
    Call cb tSince tNow fn w =
      { cb := { cb with failures := 0 }, err := none, world := w1 } := by
  have hne : cb.state ≠ StateOpen := by rw [h]; decide
  have hne2 : ¬ (StateClosed = StateHalfOpen) := by decide
  rw [Call_of_not_open cb tSince tNow fn w hne]
  simp [callRun, hfn, h, hne2]

/-- While no run of `n` failures has occurred the breaker is Closed, counts the
trailing failures, and the calls are transparent. -/
theorem closed_invariant {σ : Type} (n : Nat) (tmo : Int) (hn : 1 ≤ n)
    (hmax : (n : Int) ≤ maxInt64) (steps : List (Step σ)) (w : σ) :
    ¬ HasFailRun n (invokeAll steps w).1 →
      (runCalls (NewCircuitBreaker n tmo) steps w).cb.state = StateClosed ∧
      (runCalls (NewCircuitBreaker n tmo) steps w).cb.maxFailures = n ∧
      (runCalls (NewCircuitBreaker n tmo) steps w).cb.failures
        = failStreak (invokeAll steps w).1 ∧
      failStreak (invokeAll steps w).1 < n ∧
      (runCalls (NewCircuitBreaker n tmo) steps w).errs = (invokeAll steps w).1 ∧
      (runCalls (NewCircuitBreaker n tmo) steps w).world = (invokeAll steps w).2 := by
  induction steps using List.reverseRecOn with
  | nil =>
    intro _
    simp [runCalls, invokeAll, NewCircuitBreaker, failStreak_nil]
    omega
  | append_singleton steps s ih =>
    intro hrun
    rw [invokeAll_concat] at hrun ⊢
    rw [hasFailRun_concat] at hrun
    push_neg at hrun
    obtain ⟨hstreak, hprev⟩ := hrun
    obtain ⟨hst, hmf, hfl, hlt, herr, hw⟩ := ih hprev
    rw [runCalls_concat]
    simp only [Run.call]
    rw [herr, hw]
    rcases hfn : s.fn (invokeAll steps w).2 with ⟨r, w1⟩
    rw [hfn] at hstreak
    simp only at hstreak ⊢
    cases r with
    | none =>
      rw [Call_closed_ok _ _ _ _ _ w1 hst hfn]
      simp only [failStreak_concat_none]
      refine ⟨hst, hmf, by simp, by omega, trivial, trivial⟩
    | some e =>
      rw [Call_closed_fail _ _ _ _ _ e w1 hst hfn]
      rw [failStreak_concat_some] at hstreak ⊢
      have hadd : add64 (runCalls (NewCircuitBreaker n tmo) steps w).cb.failures 1
          = (failStreak (invokeAll steps w).1 : Int) + 1 := by
        rw [hfl]
        apply add64_eq_add
        unfold InInt64 minInt64 maxInt64
        unfold maxInt64 at hmax
        omega
      rw [hadd, hmf]
      have hnot : ¬ ((failStreak (invokeAll steps w).1 : Int) + 1 ≥ (n : Int)) := by omega
      rw [if_neg hnot]
      dsimp only
      refine ⟨hst, rfl, by push_cast; rfl, by omega, rfl, rfl⟩


theorem Call_halfopen_ok {σ : Type} (cb : CircuitBreaker) (tSince tNow : Int)
    (fn : σ → Option GoError × σ) (w : σ) (w1 : σ)
    (h : cb.state = StateHalfOpen) (hfn : fn w = (none, w1)) :
    Call cb tSince tNow fn w =
      { cb := { cb with failures := 0, state := StateClosed }, err := none, world := w1 } := by
  have hne : cb.state ≠ StateOpen := by rw [h]; decide
  have hne2 : ¬ (StateHalfOpen = StateClosed) := by decide
  rw [Call_of_not_open cb tSince tNow fn w hne]
  simp [callRun, hfn, h, hne2]

theorem Call_halfopen_fail {σ : Type} (cb : CircuitBreaker) (tSince tNow : Int)
    (fn : σ → Option GoError × σ) (w : σ) (e : GoError) (w1 : σ)
    (h : cb.state = StateHalfOpen) (hfn : fn w = (some e, w1)) :
    Call cb tSince tNow fn w =
      { cb := if add64 cb.failures 1 ≥ cb.maxFailures then
            { cb with failures := add64 cb.failures 1, lastFailTime := tNow, state := StateOpen }
          else { cb with failures := add64 cb.failures 1, lastFailTime := tNow }
        err := some e
        world := w1 } := by
  have hne : cb.state ≠ StateOpen := by rw [h]; decide
  rw [Call_of_not_open cb tSince tNow fn w hne]
  simp only [callRun, hfn]

theorem Call_open_fast {σ : Type} (cb : CircuitBreaker) (tSince tNow : Int)
    (fn : σ → Option GoError × σ) (w : σ)
    (h : cb.state = StateOpen) (hel : ¬ Since tSince cb.lastFailTime > cb.resetTimeout) :
    Call cb tSince tNow fn w =
      { cb := cb, err := some "circuit breaker open", world := w } := by
  simp [Call, h, hel]

theorem Call_open_trial {σ : Type} (cb : CircuitBreaker) (tSince tNow : Int)
    (fn : σ → Option GoError × σ) (w : σ)
    (h : cb.state = StateOpen) (hel : Since tSince cb.lastFailTime > cb.resetTimeout) :
    Call cb tSince tNow fn w =
      callRun StateOpen { cb with state := StateHalfOpen } tNow fn w := by
  simp [Call, h, hel]

theorem callRun_open_ok {σ : Type} (cb : CircuitBreaker) (tNow : Int)
    (fn : σ → Option GoError × σ) (w : σ) (w1 : σ) (hfn : fn w = (none, w1)) :
    callRun StateOpen cb tNow fn w = { cb := cb, err := none, world := w1 } := by
  have h1 : ¬ (StateOpen = StateHalfOpen) := by decide
  have h2 : ¬ (StateOpen = StateClosed) := by decide
  simp [callRun, hfn, h1, h2]

theorem callRun_fail {σ : Type} (state : Int) (cb : CircuitBreaker) (tNow : Int)
    (fn : σ → Option GoError × σ) (w : σ) (e : GoError) (w1 : σ)
    (hfn : fn w = (some e, w1)) :
    callRun state cb tNow fn w =
      { cb := if add64 cb.failures 1 ≥ cb.maxFailures then
            { cb with failures := add64 cb.failures 1, lastFailTime := tNow, state := StateOpen }
          else { cb with failures := add64 cb.failures 1, lastFailTime := tNow }
        err := some e
        world := w1 } := by
  simp only [callRun, hfn]


/-- Every breaker reached from a fresh one by fewer than `2^63` calls keeps its
threshold, has counted at most one failure per call, and is Closed or has reached
the threshold. -/
theorem reach_invariant {σ : Type} (n tmo : Int) (steps : List (Step σ)) (w : σ) :
    (steps.length : Int) ≤ maxInt64 →
      (runCalls (NewCircuitBreaker n tmo) steps w).cb.maxFailures = n ∧
      0 ≤ (runCalls (NewCircuitBreaker n tmo) steps w).cb.failures ∧
      (runCalls (NewCircuitBreaker n tmo) steps w).cb.failures ≤ steps.length ∧
      ((runCalls (NewCircuitBreaker n tmo) steps w).cb.state = StateClosed ∨
        (((runCalls (NewCircuitBreaker n tmo) steps w).cb.state = StateOpen ∨
          (runCalls (NewCircuitBreaker n tmo) steps w).cb.state = StateHalfOpen) ∧
          n ≤ (runCalls (NewCircuitBreaker n tmo) steps w).cb.failures)) := by
  induction steps using List.reverseRecOn with
  | nil =>
    intro _
    simp [runCalls, NewCircuitBreaker]
  | append_singleton steps s ih =>
    intro hlen
    have hlen1 : (steps.length : Int) + 1 ≤ maxInt64 := by
      simpa using hlen
    obtain ⟨hmf, h0, hle, hstate⟩ := ih (by omega)
    rw [runCalls_concat]
    simp only [Run.call, List.length_append, List.length_singleton, Nat.cast_add, Nat.cast_one]
    generalize runCalls (NewCircuitBreaker n tmo) steps w = r at hmf h0 hle hstate ⊢
    have hadd : add64 r.cb.failures 1 = r.cb.failures + 1 := by
      apply add64_eq_add
      unfold InInt64 minInt64
      omega
    rcases hfn : s.fn r.world with ⟨res, w1⟩
    rcases hstate with hc | ⟨ho | hh, hge⟩
    · cases res with
      | none =>
        rw [Call_closed_ok _ _ _ _ _ w1 hc hfn]
        refine ⟨hmf, le_refl _, by dsimp only; omega, Or.inl hc⟩
      | some e =>
        rw [Call_closed_fail _ _ _ _ _ e w1 hc hfn, hadd]
        split
        · rename_i hge
          refine ⟨hmf, by dsimp only; omega, by dsimp only; omega, Or.inr ⟨Or.inl rfl, ?_⟩⟩
          dsimp only; rw [← hmf]; exact hge
        · exact ⟨hmf, by dsimp only; omega, by dsimp only; omega, Or.inl hc⟩
    · by_cases hel : Since s.tSince r.cb.lastFailTime > r.cb.resetTimeout
      · rw [Call_open_trial _ _ _ _ _ ho hel]
        cases res with
        | none =>
          rw [callRun_open_ok _ _ _ _ w1 hfn]
          exact ⟨hmf, h0, by dsimp only; omega, Or.inr ⟨Or.inr rfl, hge⟩⟩
        | some e =>
          rw [callRun_fail _ _ _ _ _ e w1 hfn]
          dsimp only
          rw [hadd]
          have hge2 : r.cb.failures + 1 ≥ r.cb.maxFailures := by omega
          rw [if_pos hge2]
          exact ⟨hmf, by dsimp only; omega, by dsimp only; omega,
            Or.inr ⟨Or.inl rfl, by dsimp only; omega⟩⟩
      · rw [Call_open_fast _ _ _ _ _ ho hel]
        exact ⟨hmf, h0, by dsimp only; omega, Or.inr ⟨Or.inl ho, hge⟩⟩
    · cases res with
      | none =>
        rw [Call_halfopen_ok _ _ _ _ _ w1 hh hfn]
        exact ⟨hmf, le_refl _, by dsimp only; omega, Or.inl rfl⟩
      | some e =>
        rw [Call_halfopen_fail _ _ _ _ _ e w1 hh hfn, hadd]
        have hge2 : r.cb.failures + 1 ≥ r.cb.maxFailures := by omega
        rw [if_pos hge2]
        exact ⟨hmf, by dsimp only; omega, by dsimp only; omega,
          Or.inr ⟨Or.inl rfl, by dsimp only; omega⟩⟩


theorem callRun_err_world {σ : Type} (state : Int) (cb : CircuitBreaker) (tNow : Int)
    (fn : σ → Option GoError × σ) (w : σ) :
    (callRun state cb tNow fn w).err = (fn w).1 ∧
      (callRun state cb tNow fn w).world = (fn w).2 := by
  rcases hfn : fn w with ⟨r, w1⟩
  cases r with
  | none => simp [callRun, hfn]
  | some e => simp [callRun, hfn]

theorem wrap64_wrap64_add (a b : Int) : wrap64 (wrap64 a + b) = wrap64 (a + b) := by
  unfold wrap64
  omega


theorem tdiv_inInt64 {a b : Int} (ha : InInt64 a) (hb : 0 < b) : InInt64 (Int.tdiv a b) := by
  unfold InInt64 minInt64 maxInt64 at *
  rcases le_or_lt 0 a with h | h
  · rw [Int.tdiv_eq_ediv h (le_of_lt hb)]
    have h1 : a / b ≤ a := Int.ediv_le_self b h
    have h2 : 0 ≤ a / b := Int.ediv_nonneg h (le_of_lt hb)
    omega
  · have hna : 0 ≤ -a := by omega
    have e : Int.tdiv a b = -((-a) / b) := by
      rw [← Int.tdiv_eq_ediv hna (le_of_lt hb), Int.neg_tdiv, neg_neg]
    have h1 : (-a) / b ≤ -a := Int.ediv_le_self b hna
    have h2 : 0 ≤ (-a) / b := Int.ediv_nonneg hna (le_of_lt hb)
    omega

/-- The latency counters after recording a list of durations, up to wrap-around. -/
theorem recordRequests_wrap (ds : List Int) :
    ∀ m : Metrics,
      wrap64 (recordRequests m ds).latencySum
        = wrap64 (m.latencySum + (ds.map Milliseconds).sum) ∧
      wrap64 (recordRequests m ds).latencyCount = wrap64 (m.latencyCount + ds.length) ∧
      (InInt64 m.latencySum → InInt64 (recordRequests m ds).latencySum) ∧
      (InInt64 m.latencyCount → InInt64 (recordRequests m ds).latencyCount) := by
  induction ds with
  | nil =>
    intro m
    simp [recordRequests]
  | cons d ds ih =>
    intro m
    obtain ⟨h1, h2, h3, h4⟩ := ih (m.RecordRequest d)
    have e : recordRequests m (d :: ds) = recordRequests (m.RecordRequest d) ds := rfl
    rw [e, h1, h2]
    refine ⟨?_, ?_, fun _ => h3 (wrap64_inInt64 _), fun _ => h4 (wrap64_inInt64 _)⟩
    · simp only [Metrics.RecordRequest, add64, List.map_cons, List.sum_cons]
      rw [wrap64_wrap64_add, add_assoc]
    · simp only [Metrics.RecordRequest, add64, List.length_cons, Nat.cast_add, Nat.cast_one]
      rw [wrap64_wrap64_add]
      congr 1
      omega

/-- The latency counters of a fresh `Metrics` after recording a list of durations. -/
theorem recordRequests_fresh (ds : List Int) :
    (recordRequests {} ds).latencySum = wrap64 ((ds.map Milliseconds).sum) ∧
    (recordRequests {} ds).latencyCount = wrap64 ds.length := by
  obtain ⟨h1, h2, h3, h4⟩ := recordRequests_wrap ds {}
  have r1 : InInt64 (recordRequests {} ds).latencySum := h3 (by decide)
  have r2 : InInt64 (recordRequests {} ds).latencyCount := h4 (by decide)
  rw [wrap64_eq_self r1] at h1
  rw [wrap64_eq_self r2] at h2
  simp only [zero_add] at h1 h2
  exact ⟨h1, h2⟩

theorem getAvgLatency_of_count_pos (m : Metrics) (h : 0 < m.latencyCount)
    (hs : InInt64 m.latencySum) :
    m.GetAvgLatency = some (Int.tdiv m.latencySum m.latencyCount) := by
  have hne : m.latencyCount ≠ 0 := by omega
  simp only [Metrics.GetAvgLatency, div64, if_neg hne]
  rw [wrap64_eq_self (tdiv_inInt64 hs h)]

theorem submitAll_concat (s : Service) (reqs : List (Request × IngestClock))
    (p : Request × IngestClock) :
    submitAll s (reqs ++ [p]) =
      ((IngestHandler (submitAll s reqs).1 p.1 p.2).1,
        (submitAll s reqs).2 ++ [(IngestHandler (submitAll s reqs).1 p.1 p.2).2]) := by
  simp [submitAll, List.foldl_append]

theorem ingest_reject (s : Service) (r : Request) (clk : IngestClock) (hv : ValidSubmit r)
    (hfull : s.queueCap ≤ s.queue.length) :
    IngestHandler s r clk =
      ({ s with metrics := { s.metrics with errorsTotal := add64 s.metrics.errorsTotal 1 } },
        { status := 429, body := "Queue full\n" }) := by
  obtain ⟨hm, msg, hb, h1, h2⟩ := hv
  have hnot : ¬ s.queue.length < s.queueCap := by omega
  simp [IngestHandler, hm, hb, h1, h2, hnot, Metrics.RecordError, httpError]

theorem ingest_accept (s : Service) (r : Request) (clk : IngestClock) (hv : ValidSubmit r)
    (hroom : s.queue.length < s.queueCap) :
    (IngestHandler s r clk).2.status = 202 ∧
    (IngestHandler s r clk).1.queue.length = s.queue.length + 1 ∧
    (IngestHandler s r clk).1.queueCap = s.queueCap ∧
    (IngestHandler s r clk).1.metrics.queueDepth = add64 s.metrics.queueDepth 1 ∧
    (IngestHandler s r clk).1.metrics.requestsTotal = add64 s.metrics.requestsTotal 1 ∧
    (IngestHandler s r clk).1.metrics.errorsTotal = s.metrics.errorsTotal := by
  obtain ⟨hm, msg, hb, h1, h2⟩ := hv
  simp [IngestHandler, hm, hb, h1, h2, hroom, Metrics.RecordRequest]

/-- The state of a fresh service after a run of valid submissions with no consumer;
the counters are given up to 64-bit wrap-around. -/
theorem submit_invariant (wc : Int) (c : Nat) (reqs : List (Request × IngestClock)) :
    (∀ p ∈ reqs, ValidSubmit p.1) →
      (submitAll (NewService wc c) reqs).1.queueCap = c ∧
      (submitAll (NewService wc c) reqs).1.queue.length = min reqs.length c ∧
      (submitAll (NewService wc c) reqs).1.metrics.queueDepth
        = wrap64 (min reqs.length c : Nat) ∧
      (submitAll (NewService wc c) reqs).1.metrics.requestsTotal
        = wrap64 (min reqs.length c : Nat) ∧
      (submitAll (NewService wc c) reqs).1.metrics.errorsTotal
        = wrap64 (reqs.length - min reqs.length c : Nat) ∧
      (submitAll (NewService wc c) reqs).2.map Response.status
        = List.replicate (min reqs.length c) 202
          ++ List.replicate (reqs.length - min reqs.length c) 429 ∧
      (∀ resp ∈ (submitAll (NewService wc c) reqs).2,
        resp.status = 429 → resp.body = "Queue full\n") := by
  induction reqs using List.reverseRecOn with
  | nil =>
    intro _
    simp [submitAll, NewService, wrap64]
  | append_singleton reqs p ih =>
    intro hvalid
    have hv : ValidSubmit p.1 := hvalid p (by simp)
    obtain ⟨hcap, hq, hqd, hrt, het, hst, hbody⟩ :=
      ih (fun q hq => hvalid q (by simp [hq]))
    rw [submitAll_concat]
    simp only [List.length_append, List.length_singleton]
    by_cases hroom : reqs.length < c
    · have hroom1 : (submitAll (NewService wc c) reqs).1.queue.length
          < (submitAll (NewService wc c) reqs).1.queueCap := by
        rw [hq, hcap]; omega
      obtain ⟨a1, a2, a3, a4, a5, a6⟩ :=
        ingest_accept (submitAll (NewService wc c) reqs).1 p.1 p.2 hv hroom1
      have hmin : min reqs.length c = reqs.length := by omega
      have hmin1 : min (reqs.length + 1) c = reqs.length + 1 := by omega
      rw [hmin] at hq hqd hrt het hst
      rw [hmin1]
      refine ⟨by rw [a3, hcap], by rw [a2, hq], ?_, ?_, ?_, ?_, ?_⟩
      · rw [a4, hqd, add64, wrap64_wrap64_add]
        push_cast; rfl
      · rw [a5, hrt, add64, wrap64_wrap64_add]
        push_cast; rfl
      · rw [a6, het]
        simp
      · rw [List.map_append, hst, List.map_singleton, a1]
        simp [List.replicate_succ']
      · intro resp hresp hs
        rcases List.mem_append.mp hresp with h | h
        · exact hbody resp h hs
        · rw [List.mem_singleton] at h
          rw [h, a1] at hs
          exact absurd hs (by decide)
    · have hfull : (submitAll (NewService wc c) reqs).1.queueCap
          ≤ (submitAll (NewService wc c) reqs).1.queue.length := by
        rw [hq, hcap]; omega
      rw [ingest_reject (submitAll (NewService wc c) reqs).1 p.1 p.2 hv hfull]
      have hmin : min reqs.length c = c := by omega
      have hmin1 : min (reqs.length + 1) c = c := by omega
      rw [hmin] at hq hqd hrt het hst
      rw [hmin1]
      refine ⟨hcap, hq, hqd, hrt, ?_, ?_, ?_⟩
      · dsimp only
        rw [het, add64, wrap64_wrap64_add]
        congr 1
        omega
      · rw [List.map_append, hst, List.map_singleton]
        have e : reqs.length + 1 - c = (reqs.length - c) + 1 := by omega
        rw [e, List.replicate_succ', List.append_assoc]
      · intro resp hresp hs
        rcases List.mem_append.mp hresp with h | h
        · exact hbody resp h hs
        · rw [List.mem_singleton] at h
          rw [h]

theorem simulateNLPCall_message (unixNano : Int) (p : ProcessedMessage) :
    (simulateNLPCall unixNano p).2.Message = p.Message := by
  unfold simulateNLPCall
  split <;> rfl

theorem Call_world_cases {σ : Type} (cb : CircuitBreaker) (tSince tNow : Int)
    (fn : σ → Option GoError × σ) (w : σ) :
    (Call cb tSince tNow fn w).world = w ∨ (Call cb tSince tNow fn w).world = (fn w).2 := by
  unfold Call
  dsimp only
  split
  · split
    · exact Or.inr (callRun_err_world _ _ _ _ _).2
    · exact Or.inl rfl
  · exact Or.inr (callRun_err_world _ _ _ _ _).2

/-- The division in `GetAvgLatency` never has a zero divisor. -/
theorem avg_latency_defined (m : Metrics) : m.GetAvgLatency ≠ none := by
  by_cases h : m.latencyCount = 0
  · simp [Metrics.GetAvgLatency, h]
  · simp [Metrics.GetAvgLatency, div64, h]

theorem processMessage_ok (s : Service) (msg : Message) (clk : ProcessClock)
    (cb1 : CircuitBreaker) (world : ProcessedMessage)
    (hc : Call s.cb clk.cbSince clk.cbNow (simulateNLPCall clk.nlpNano)
      ({ Message := msg, NLPSentiment := "", NLPScore := 0 } : ProcessedMessage)
        = { cb := cb1, err := none, world := world }) :
    processMessage s msg clk =
      { service := { s with
          cb := cb1
          metrics := { s.metrics with
            nlpCallsTotal := add64 s.metrics.nlpCallsTotal 1
            dbWritesTotal := add64 s.metrics.dbWritesTotal 1 } }
        err := none
        written := world } := by
  simp [processMessage, hc, simulateDBWrite, Metrics.RecordNLPCall, Metrics.RecordDBWrite]

theorem processMessage_err (s : Service) (msg : Message) (clk : ProcessClock)
    (cb1 : CircuitBreaker) (e : GoError) (world : ProcessedMessage)
    (hc : Call s.cb clk.cbSince clk.cbNow (simulateNLPCall clk.nlpNano)
      ({ Message := msg, NLPSentiment := "", NLPScore := 0 } : ProcessedMessage)
        = { cb := cb1, err := some e, world := world }) :
    processMessage s msg clk =
      { service := { s with
          cb := cb1
          metrics := { s.metrics with
            nlpCallsTotal := add64 s.metrics.nlpCallsTotal 1
            nlpErrorsTotal := add64 s.metrics.nlpErrorsTotal 1
            dbWritesTotal := add64 s.metrics.dbWritesTotal 1 } }
        err := some e
        written := { world with NLPSentiment := "unknown", NLPScore := 0 } } := by
  simp [processMessage, hc, simulateDBWrite, Metrics.RecordNLPCall, Metrics.RecordDBWrite]

/-! ## Circuit breaker: properties -/

/-- C1: a breaker built by `NewCircuitBreaker` with threshold `n ≥ 1` (a Go `int`,
so `n ≤ maxInt64`), driven from its fresh state by any sequence of sequential calls
whose operations have so far produced no run of `n` consecutive failures, is Closed;
every call invoked its operation and returned exactly the operation's result (the
returned errors and the final world are those of invoking the operations directly);
the failure count is the number of trailing failures, so it is 0 right after a
success; and the call whose operation completes the first run of `n` consecutive
failures is still invoked, returns the operation's result and leaves the stored
state Open. -/
theorem breaker_closed_until_threshold {σ : Type} (n : Nat) (tmo : Int) (hn : 1 ≤ n)
    (hmax : (n : Int) ≤ maxInt64) (steps : List (Step σ)) (w : σ)
    (hrun : ¬ HasFailRun n (invokeAll steps w).1) :
    (runCalls (NewCircuitBreaker n tmo) steps w).cb.state = StateClosed ∧
    (runCalls (NewCircuitBreaker n tmo) steps w).errs = (invokeAll steps w).1 ∧
    (runCalls (NewCircuitBreaker n tmo) steps w).world = (invokeAll steps w).2 ∧
    (runCalls (NewCircuitBreaker n tmo) steps w).cb.failures
      = failStreak (invokeAll steps w).1 ∧
    (∀ pre, (invokeAll steps w).1 = pre ++ [none] →
      (runCalls (NewCircuitBreaker n tmo) steps w).cb.failures = 0) ∧
    (∀ s : Step σ, HasFailRun n (invokeAll (steps ++ [s]) w).1 →
      (runCalls (NewCircuitBreaker n tmo) (steps ++ [s]) w).cb.state = StateOpen ∧
      (runCalls (NewCircuitBreaker n tmo) (steps ++ [s]) w).errs
        = (invokeAll (steps ++ [s]) w).1 ∧
      (runCalls (NewCircuitBreaker n tmo) (steps ++ [s]) w).world
        = (invokeAll (steps ++ [s]) w).2) := by
  obtain ⟨hst, hmf, hfl, hlt, herr, hw⟩ := closed_invariant n tmo hn hmax steps w hrun
  refine ⟨hst, herr, hw, hfl, ?_, ?_⟩
  · intro pre hpre
    rw [hfl, hpre, failStreak_concat_none]
    rfl
  · intro s hs
    rw [invokeAll_concat] at hs ⊢
    rw [hasFailRun_concat] at hs
    rcases hs with hs | hs
    · rw [runCalls_concat]
      simp only [Run.call]
      rw [herr, hw]
      rcases hfn : s.fn (invokeAll steps w).2 with ⟨r, w1⟩
      rw [hfn] at hs
      cases r with
      | none =>
        rw [failStreak_concat_none] at hs
        omega
      | some e =>
        rw [failStreak_concat_some] at hs
        rw [Call_closed_fail _ _ _ _ _ e w1 hst hfn]
        have hadd : add64 (runCalls (NewCircuitBreaker n tmo) steps w).cb.failures 1
            = (failStreak (invokeAll steps w).1 : Int) + 1 := by
          rw [hfl]
          apply add64_eq_add
          unfold InInt64 minInt64 maxInt64
          unfold maxInt64 at hmax
          omega
        rw [hadd, hmf]
        have hge : (failStreak (invokeAll steps w).1 : Int) + 1 ≥ (n : Int) := by omega
        rw [if_pos hge]
        exact ⟨rfl, rfl, rfl⟩
    · exact absurd hs hrun

/-- C1, at threshold 3: three consecutive failing calls move the breaker from Closed
to Open, while fail, fail, success, fail, fail leaves it Closed with two failures
counted. -/
theorem breaker_closed_until_threshold_witness :
    (runCalls (NewCircuitBreaker 3 30000000000)
      [stepAt 10 (some "e"), stepAt 20 (some "e")] 0).cb.state = StateClosed ∧
    (runCalls (NewCircuitBreaker 3 30000000000)
      ([stepAt 10 (some "e"), stepAt 20 (some "e")] ++ [stepAt 30 (some "e")]) 0).cb.state
        = StateOpen ∧
    (runCalls (NewCircuitBreaker 3 30000000000)
      [stepAt 10 (some "e"), stepAt 20 (some "e"), stepAt 30 none, stepAt 40 (some "e"),
        stepAt 50 (some "e")] 0).cb.state = StateClosed ∧
    (runCalls (NewCircuitBreaker 3 30000000000)
      [stepAt 10 (some "e"), stepAt 20 (some "e"), stepAt 30 none, stepAt 40 (some "e"),
        stepAt 50 (some "e")] 0).world = 5 :=
  ⟨(breaker_closed_until_threshold 3 30000000000 (by decide) (by decide)
      [stepAt 10 (some "e"), stepAt 20 (some "e")] 0 (by decide)).1,
   ((breaker_closed_until_threshold 3 30000000000 (by decide) (by decide)
      [stepAt 10 (some "e"), stepAt 20 (some "e")] 0 (by decide)).2.2.2.2.2
      (stepAt 30 (some "e")) (by decide)).1,
   (breaker_closed_until_threshold 3 30000000000 (by decide) (by decide)
      [stepAt 10 (some "e"), stepAt 20 (some "e"), stepAt 30 none, stepAt 40 (some "e"),
        stepAt 50 (some "e")] 0 (by decide)).1,
   (breaker_closed_until_threshold 3 30000000000 (by decide) (by decide)
      [stepAt 10 (some "e"), stepAt 20 (some "e"), stepAt 30 none, stepAt 40 (some "e"),
        stepAt 50 (some "e")] 0 (by decide)).2.2.1⟩

/-- C2: on a breaker whose stored state is Open, `Call` invokes the wrapped operation
if and only if the time elapsed since the last recorded failure strictly exceeds the
reset timeout.  When it does not, `Call` returns the error "circuit breaker open",
the operation is not invoked (its world is untouched) and the breaker (state, failure
count, last-failure time) is unchanged.  When it does, the operation is invoked
exactly once and `Call` returns its result.  The last conjunct counts the
invocations with an operation that increments a counter. -/
theorem open_breaker_gate {σ : Type} (cb : CircuitBreaker) (tSince tNow : Int)
    (fn : σ → Option GoError × σ) (w : σ) (hopen : cb.state = StateOpen) :
    (Since tSince cb.lastFailTime ≤ cb.resetTimeout →
      (Call cb tSince tNow fn w).err = some "circuit breaker open" ∧
      (Call cb tSince tNow fn w).world = w ∧
      (Call cb tSince tNow fn w).cb = cb) ∧
    (Since tSince cb.lastFailTime > cb.resetTimeout →
      (Call cb tSince tNow fn w).err = (fn w).1 ∧
      (Call cb tSince tNow fn w).world = (fn w).2) ∧
    (∀ (r : Option GoError) (k : Nat),
      (Call cb tSince tNow (countingOp r) k).world
        = k + (if Since tSince cb.lastFailTime > cb.resetTimeout then 1 else 0)) := by
  refine ⟨?_, ?_, ?_⟩
  · intro hel
    rw [Call_open_fast cb tSince tNow fn w hopen (not_lt.mpr hel)]
    exact ⟨rfl, rfl, rfl⟩
  · intro hel
    rw [Call_open_trial cb tSince tNow fn w hopen hel]
    exact callRun_err_world _ _ _ _ _
  · intro r k
    by_cases hel : Since tSince cb.lastFailTime > cb.resetTimeout
    · rw [Call_open_trial cb tSince tNow _ k hopen hel, if_pos hel]
      exact (callRun_err_world _ _ _ _ _).2
    · rw [Call_open_fast cb tSince tNow _ k hopen hel, if_neg hel]
      rfl

/-- C2, the scenario threshold 1, reset timeout 0: one failing call at time 0 opens
the breaker, a call 1 ms later is executed as a trial (the operation runs once and
its result is returned), while a call at the very same instant is refused. -/
theorem open_breaker_gate_witness :
    (runCalls (NewCircuitBreaker 1 0) [stepAt 0 (some "nlp api error")] 0).cb.state
      = StateOpen ∧
    (Call (runCalls (NewCircuitBreaker 1 0) [stepAt 0 (some "nlp api error")] 0).cb
      1000000 1000000 (countingOp none) 1).err = none ∧
    (Call (runCalls (NewCircuitBreaker 1 0) [stepAt 0 (some "nlp api error")] 0).cb
      1000000 1000000 (countingOp none) 1).world = 2 ∧
    (Call (runCalls (NewCircuitBreaker 1 0) [stepAt 0 (some "nlp api error")] 0).cb
      0 0 (countingOp none) 1).err = some "circuit breaker open" ∧
    (Call (runCalls (NewCircuitBreaker 1 0) [stepAt 0 (some "nlp api error")] 0).cb
      0 0 (countingOp none) 1).world = 1 :=
  ⟨by decide,
   ((open_breaker_gate
      (runCalls (NewCircuitBreaker 1 0) [stepAt 0 (some "nlp api error")] 0).cb
      1000000 1000000 (countingOp none) 1 (by decide)).2.1 (by decide)).1,
   ((open_breaker_gate
      (runCalls (NewCircuitBreaker 1 0) [stepAt 0 (some "nlp api error")] 0).cb
      1000000 1000000 (countingOp none) 1 (by decide)).2.1 (by decide)).2,
   ((open_breaker_gate
      (runCalls (NewCircuitBreaker 1 0) [stepAt 0 (some "nlp api error")] 0).cb
      0 0 (countingOp none) 1 (by decide)).1 (by decide)).1,
   ((open_breaker_gate
      (runCalls (NewCircuitBreaker 1 0) [stepAt 0 (some "nlp api error")] 0).cb
      0 0 (countingOp none) 1 (by decide)).1 (by decide)).2.1⟩

/-- C3: take any breaker reached from a fresh one (any threshold, in particular any
threshold ≥ 1) by a sequence of sequential calls with arbitrary operations and clock
readings, and suppose its stored state is Half-Open.  A further call whose operation
succeeds leaves the stored state Closed with the failure count 0.  A further call
whose operation fails leaves the stored state Open, provided fewer than `2^63 - 1`
calls were made before it, so that the `int64` failure counter has not wrapped. -/
theorem half_open_resolution {σ : Type} (n tmo : Int) (steps : List (Step σ)) (w : σ)
    (hhalf : (runCalls (NewCircuitBreaker n tmo) steps w).cb.state = StateHalfOpen)
    (s : Step σ) :
    ((s.fn (runCalls (NewCircuitBreaker n tmo) steps w).world).1 = none →
      (runCalls (NewCircuitBreaker n tmo) (steps ++ [s]) w).cb.state = StateClosed ∧
      (runCalls (NewCircuitBreaker n tmo) (steps ++ [s]) w).cb.failures = 0) ∧
    ((steps.length : Int) < maxInt64 →
      (s.fn (runCalls (NewCircuitBreaker n tmo) steps w).world).1 ≠ none →
      (runCalls (NewCircuitBreaker n tmo) (steps ++ [s]) w).cb.state = StateOpen) := by
  constructor
  · intro hres
    rw [runCalls_concat]
    simp only [Run.call]
    rcases hfn : s.fn (runCalls (NewCircuitBreaker n tmo) steps w).world with ⟨res, w1⟩
    rw [hfn] at hres
    simp only at hres
    subst hres
    rw [Call_halfopen_ok _ _ _ _ _ w1 hhalf hfn]
    exact ⟨rfl, rfl⟩
  · intro hlen hres
    obtain ⟨hmf, h0, hle, hstate⟩ := reach_invariant n tmo steps w (le_of_lt hlen)
    rw [runCalls_concat]
    simp only [Run.call]
    generalize runCalls (NewCircuitBreaker n tmo) steps w = r at hmf h0 hle hstate hhalf hres ⊢
    have hge : n ≤ r.cb.failures := by
      rcases hstate with hc | ⟨_, hge⟩
      · rw [hhalf] at hc
        exact absurd hc (by decide)
      · exact hge
    rcases hfn : s.fn r.world with ⟨res, w1⟩
    rw [hfn] at hres
    cases res with
    | none => exact absurd rfl hres
    | some e =>
      rw [Call_halfopen_fail _ _ _ _ _ e w1 hhalf hfn]
      have hadd : add64 r.cb.failures 1 = r.cb.failures + 1 := by
        apply add64_eq_add
        unfold InInt64 minInt64
        omega
      rw [hadd]
      have hge2 : r.cb.failures + 1 ≥ r.cb.maxFailures := by omega
      rw [if_pos hge2]

/-- C3, on the breaker with threshold 1 and reset timeout 0 that failed at time 0 and
passed a trial 1 ms later (stored state Half-Open): a further success closes it with
the failure count 0, a further failure opens it. -/
theorem half_open_resolution_witness :
    (runCalls (NewCircuitBreaker 1 0) [stepAt 0 (some "e"), stepAt 1000000 none] 0).cb.state
      = StateHalfOpen ∧
    (runCalls (NewCircuitBreaker 1 0)
      ([stepAt 0 (some "e"), stepAt 1000000 none] ++ [stepAt 2000000 none]) 0).cb.state
        = StateClosed ∧
    (runCalls (NewCircuitBreaker 1 0)
      ([stepAt 0 (some "e"), stepAt 1000000 none] ++ [stepAt 2000000 none]) 0).cb.failures
        = 0 ∧
    (runCalls (NewCircuitBreaker 1 0)
      ([stepAt 0 (some "e"), stepAt 1000000 none] ++ [stepAt 2000000 (some "e")]) 0).cb.state
        = StateOpen :=
  ⟨by decide,
   ((half_open_resolution 1 0 [stepAt 0 (some "e"), stepAt 1000000 none] 0
      (by decide) (stepAt 2000000 none)).1 (by decide)).1,
   ((half_open_resolution 1 0 [stepAt 0 (some "e"), stepAt 1000000 none] 0
      (by decide) (stepAt 2000000 none)).1 (by decide)).2,
   (half_open_resolution 1 0 [stepAt 0 (some "e"), stepAt 1000000 none] 0
      (by decide) (stepAt 2000000 (some "e"))).2 (by decide) (by decide)⟩

/-- C10: on a breaker whose stored state is Open and whose last failure is older than
the reset timeout, a call whose operation succeeds returns `nil`, has invoked the
operation, and leaves the stored state Half-Open (not Closed) and the failure count
exactly what it was: the breaker differs from the one before only in its state. -/
theorem open_trial_success_stays_half_open {σ : Type} (cb : CircuitBreaker)
    (tSince tNow : Int) (fn : σ → Option GoError × σ) (w : σ)
    (hopen : cb.state = StateOpen)
    (hel : Since tSince cb.lastFailTime > cb.resetTimeout)
    (hok : (fn w).1 = none) :
    (Call cb tSince tNow fn w).err = none ∧
    (Call cb tSince tNow fn w).world = (fn w).2 ∧
    (Call cb tSince tNow fn w).cb.state = StateHalfOpen ∧
    (Call cb tSince tNow fn w).cb.state ≠ StateClosed ∧
    (Call cb tSince tNow fn w).cb.failures = cb.failures ∧
    (Call cb tSince tNow fn w).cb = { cb with state := StateHalfOpen } := by
  rw [Call_open_trial cb tSince tNow fn w hopen hel]
  rcases hfn : fn w with ⟨r, w1⟩
  rw [hfn] at hok
  simp only at hok
  subst hok
  rw [callRun_open_ok _ _ _ _ w1 hfn]
  exact ⟨rfl, rfl, rfl, by dsimp only; decide, rfl, rfl⟩

/-- C10, with threshold 3 and a 30 s reset timeout: after three failures (count 3,
Open), a successful call 31 s after the last failure returns `nil` and leaves the
breaker Half-Open with the count still 3. -/
theorem open_trial_success_stays_half_open_witness :
    (Call (runCalls (NewCircuitBreaker 3 30000000000)
        [stepAt 10 (some "e"), stepAt 20 (some "e"), stepAt 30 (some "e")] 0).cb
      31000000030 31000000030 (countingOp none) 3).err = none ∧
    (Call (runCalls (NewCircuitBreaker 3 30000000000)
        [stepAt 10 (some "e"), stepAt 20 (some "e"), stepAt 30 (some "e")] 0).cb
      31000000030 31000000030 (countingOp none) 3).cb.state = StateHalfOpen ∧
    (Call (runCalls (NewCircuitBreaker 3 30000000000)
        [stepAt 10 (some "e"), stepAt 20 (some "e"), stepAt 30 (some "e")] 0).cb
      31000000030 31000000030 (countingOp none) 3).cb.failures = 3 :=
  ⟨(open_trial_success_stays_half_open _ 31000000030 31000000030 (countingOp none) 3
      (by decide) (by decide) (by decide)).1,
   (open_trial_success_stays_half_open _ 31000000030 31000000030 (countingOp none) 3
      (by decide) (by decide) (by decide)).2.2.1,
   (open_trial_success_stays_half_open _ 31000000030 31000000030 (countingOp none) 3
      (by decide) (by decide) (by decide)).2.2.2.2.1⟩

/-! ## Metrics: properties -/

/-- C6 (amended): `GetAvgLatency` returns 0 on every `Metrics` with zero latency
samples, in particular on a fresh one; it never divides by zero (it returns a value
on every input); for every non-empty list of durations recorded with `RecordRequest`
on a fresh `Metrics`, with at most `2^63 - 1` samples and the sum of whose
whole-millisecond values lies in the signed 64-bit range, it returns the quotient of
that sum by the number of samples, truncated toward zero (the ordinary quotient when
the sum is non-negative); and for latencies of 100, 200 and 300 ms it returns 200. -/
theorem avg_latency_spec :
    (∀ m : Metrics, m.latencyCount = 0 → m.GetAvgLatency = some 0) ∧
    ({} : Metrics).GetAvgLatency = some 0 ∧
    (∀ m : Metrics, m.GetAvgLatency ≠ none) ∧
    (∀ ds : List Int, ds ≠ [] → (ds.length : Int) ≤ maxInt64 →
      InInt64 (ds.map Milliseconds).sum →
      (recordRequests {} ds).GetAvgLatency
        = some (Int.tdiv (ds.map Milliseconds).sum ds.length) ∧
      (0 ≤ (ds.map Milliseconds).sum →
        (recordRequests {} ds).GetAvgLatency = some ((ds.map Milliseconds).sum / ds.length))) ∧
    (recordRequests {} [100 * 1000000, 200 * 1000000, 300 * 1000000]).GetAvgLatency
      = some 200 := by
  refine ⟨?_, by decide, ?_, ?_, by decide⟩
  · intro m h
    simp [Metrics.GetAvgLatency, h]
  · intro m
    by_cases h : m.latencyCount = 0
    · simp [Metrics.GetAvgLatency, h]
    · simp [Metrics.GetAvgLatency, div64, h]
  · intro ds hne hlen hsum
    obtain ⟨h1, h2⟩ := recordRequests_fresh ds
    have hpos : 0 < ds.length := List.length_pos.mpr hne
    have hlenr : InInt64 (ds.length : Int) := by
      unfold InInt64 minInt64
      omega
    rw [wrap64_eq_self hsum] at h1
    rw [wrap64_eq_self hlenr] at h2
    have hcount : 0 < (recordRequests {} ds).latencyCount := by
      rw [h2]
      exact_mod_cast hpos
    have hmain := getAvgLatency_of_count_pos (recordRequests {} ds) hcount (by rw [h1]; exact hsum)
    rw [h1, h2] at hmain
    refine ⟨hmain, ?_⟩
    intro h0
    rw [hmain, Int.tdiv_eq_ediv h0 (by omega)]

/-- C6 (amended), on concrete inputs: two samples of 100 ms and 251 ms give 175, and
two samples of -100 ms and -251 ms give -175 (truncation toward zero). -/
theorem avg_latency_spec_witness :
    (recordRequests {} [100000000, 251000000]).GetAvgLatency = some 175 ∧
    (recordRequests {} [-100000000, -251000000]).GetAvgLatency = some (-175) :=
  ⟨(avg_latency_spec.2.2.2.1 [100000000, 251000000] (by decide) (by decide)
      (by decide)).1,
   (avg_latency_spec.2.2.2.1 [-100000000, -251000000] (by decide) (by decide)
      (by decide)).1⟩

/-- C6 as stated fails when the cumulative latency overflows: after 1000001 samples
of the largest duration (9223372036854 whole milliseconds each) the quotient of the
sum of the millisecond values by the number of samples is 9223372036854, but the
`int64` counter `latencySum` has wrapped to -9223362813483514762 and `GetAvgLatency`
returns -9223353590129. -/
theorem avg_latency_overflow_counterexample :
    List.replicate 1000001 (9223372036854775807 : Int) ≠ [] ∧
    Int.tdiv ((List.replicate 1000001 (9223372036854775807 : Int)).map Milliseconds).sum
      ((List.replicate 1000001 (9223372036854775807 : Int)).length : Int)
      = 9223372036854 ∧
    (recordRequests {} (List.replicate 1000001 (9223372036854775807 : Int))).latencySum
      = -9223362813483514762 ∧
    (recordRequests {} (List.replicate 1000001 (9223372036854775807 : Int))).GetAvgLatency
      = some (-9223353590129) := by
  have hms : Milliseconds 9223372036854775807 = 9223372036854 := by decide
  have hsum : ((List.replicate 1000001 (9223372036854775807 : Int)).map Milliseconds).sum
      = 1000001 * 9223372036854 := by
    rw [List.map_replicate, List.sum_replicate, hms]
    rfl
  have hlen : (List.replicate 1000001 (9223372036854775807 : Int)).length = 1000001 :=
    List.length_replicate _ _
  obtain ⟨h1, h2⟩ := recordRequests_fresh (List.replicate 1000001 (9223372036854775807 : Int))
  rw [hsum] at h1
  rw [hlen] at h2
  have hw1 : wrap64 (1000001 * 9223372036854) = -9223362813483514762 := by decide
  have hw2 : wrap64 ((1000001 : Nat) : Int) = 1000001 := by decide
  rw [hw1] at h1
  rw [hw2] at h2
  refine ⟨?_, ?_, h1, ?_⟩
  · intro h
    have := congrArg List.length h
    rw [hlen] at this
    exact absurd this (by decide)
  · rw [hsum, hlen]
    decide
  · have hcount : 0 < (recordRequests {}
        (List.replicate 1000001 (9223372036854775807 : Int))).latencyCount := by
      rw [h2]; decide
    rw [getAvgLatency_of_count_pos _ hcount (by rw [h1]; decide), h1, h2]
    decide

/-- C7 (amended): every `Metrics` counter other than queue-depth and active-workers
is, absent 64-bit overflow of the additions performed, greater than or equal to its
value before a call of `RecordRequest(d)` with a duration `d` whose whole-millisecond
value is non-negative, of `RecordError()`, of `RecordNLPCall(b)` with any flag `b`,
or of `RecordDBWrite()`. -/
theorem counters_monotone (m : Metrics) (d : Int) (b : Bool) :
    (0 ≤ Milliseconds d → InInt64 (m.requestsTotal + 1) →
      InInt64 (m.latencySum + Milliseconds d) → InInt64 (m.latencyCount + 1) →
      CountersLe m (m.RecordRequest d)) ∧
    (InInt64 (m.errorsTotal + 1) → CountersLe m m.RecordError) ∧
    (InInt64 (m.nlpCallsTotal + 1) → (b = false → InInt64 (m.nlpErrorsTotal + 1)) →
      CountersLe m (m.RecordNLPCall b)) ∧
    (InInt64 (m.dbWritesTotal + 1) → CountersLe m m.RecordDBWrite) := by
  refine ⟨?_, ?_, ?_, ?_⟩
  · intro hd h1 h2 h3
    simp only [CountersLe, Metrics.RecordRequest, add64_eq_add h1, add64_eq_add h2,
      add64_eq_add h3]
    omega
  · intro h1
    simp only [CountersLe, Metrics.RecordError, add64_eq_add h1]
    omega
  · intro h1 h2
    cases b with
    | true =>
      simp only [CountersLe, Metrics.RecordNLPCall, add64_eq_add h1]
      simp
    | false =>
      simp only [CountersLe, Metrics.RecordNLPCall, add64_eq_add h1, add64_eq_add (h2 rfl)]
      simp
  · intro h1
    simp only [CountersLe, Metrics.RecordDBWrite, add64_eq_add h1]
    omega

/-- C7 (amended), on a fresh `Metrics`: recording a 5 ms request, an error, a failed
NLP call and a write lowers none of the counters. -/
theorem counters_monotone_witness :
    CountersLe {} (Metrics.RecordRequest {} 5000000) ∧
    CountersLe {} (Metrics.RecordError {}) ∧
    CountersLe {} (Metrics.RecordNLPCall {} false) ∧
    CountersLe {} (Metrics.RecordDBWrite {}) :=
  ⟨(counters_monotone {} 5000000 false).1 (by decide) (by decide) (by decide) (by decide),
   (counters_monotone {} 5000000 false).2.1 (by decide),
   (counters_monotone {} 5000000 false).2.2.1 (by decide) (fun _ => by decide),
   (counters_monotone {} 5000000 false).2.2.2 (by decide)⟩

/-- C7 as stated fails for a negative duration: `RecordRequest(-1ms)` on a fresh
`Metrics` overflows nothing and lowers `latencySum` from 0 to -1. -/
theorem counters_monotone_counterexample :
    InInt64 (({} : Metrics).requestsTotal + 1) ∧
    InInt64 (({} : Metrics).latencySum + Milliseconds (-1000000)) ∧
    InInt64 (({} : Metrics).latencyCount + 1) ∧
    (Metrics.RecordRequest {} (-1000000)).latencySum = -1 ∧
    ¬ (({} : Metrics).latencySum ≤ (Metrics.RecordRequest {} (-1000000)).latencySum) ∧
    ¬ CountersLe {} (Metrics.RecordRequest {} (-1000000)) := by
  decide

/-! ## Service and handlers: properties -/

/-- C4: for every queue capacity `c` and every run of `n` valid submissions (POST,
non-empty bot id and content) handled one after another by `IngestHandler` on a fresh
service with no worker consuming, exactly the first `min n c` are answered 202 and
every later one 429 with body "Queue full"; afterwards the queue holds `min n c`
messages and the `int64` counters `queueDepth`, `requestsTotal`, `errorsTotal` hold
`min n c`, `min n c` and `n - min n c` (as 64-bit values, hence exactly these numbers
whenever `n ≤ 2^63 - 1`); and a further valid submission once the queue is full
(`c ≤ n`) is rejected with 429 "Queue full", leaves the queue contents, `queueDepth`
and `requestsTotal` unchanged and performs one `Add(1)` on `errorsTotal`. -/
theorem submit_backpressure (wc : Int) (c : Nat) (reqs : List (Request × IngestClock))
    (hvalid : ∀ p ∈ reqs, ValidSubmit p.1) :
    (submitAll (NewService wc c) reqs).2.map Response.status
      = List.replicate (min reqs.length c) 202
        ++ List.replicate (reqs.length - min reqs.length c) 429 ∧
    (∀ resp ∈ (submitAll (NewService wc c) reqs).2,
      resp.status = 429 → resp.body = "Queue full\n") ∧
    (submitAll (NewService wc c) reqs).1.queue.length = min reqs.length c ∧
    (submitAll (NewService wc c) reqs).1.metrics.queueDepth
      = wrap64 (min reqs.length c : Nat) ∧
    (submitAll (NewService wc c) reqs).1.metrics.requestsTotal
      = wrap64 (min reqs.length c : Nat) ∧
    (submitAll (NewService wc c) reqs).1.metrics.errorsTotal
      = wrap64 (reqs.length - min reqs.length c : Nat) ∧
    ((reqs.length : Int) ≤ maxInt64 →
      (submitAll (NewService wc c) reqs).1.metrics.queueDepth = (min reqs.length c : Nat) ∧
      (submitAll (NewService wc c) reqs).1.metrics.requestsTotal = (min reqs.length c : Nat) ∧
      (submitAll (NewService wc c) reqs).1.metrics.errorsTotal
        = (reqs.length - min reqs.length c : Nat)) ∧
    (∀ p : Request × IngestClock, ValidSubmit p.1 → c ≤ reqs.length →
      (submitAll (NewService wc c) (reqs ++ [p])).2
        = (submitAll (NewService wc c) reqs).2 ++ [{ status := 429, body := "Queue full\n" }] ∧
      (submitAll (NewService wc c) (reqs ++ [p])).1.queue
        = (submitAll (NewService wc c) reqs).1.queue ∧
      (submitAll (NewService wc c) (reqs ++ [p])).1.metrics.queueDepth
        = (submitAll (NewService wc c) reqs).1.metrics.queueDepth ∧
      (submitAll (NewService wc c) (reqs ++ [p])).1.metrics.requestsTotal
        = (submitAll (NewService wc c) reqs).1.metrics.requestsTotal ∧
      (submitAll (NewService wc c) (reqs ++ [p])).1.metrics.errorsTotal
        = add64 (submitAll (NewService wc c) reqs).1.metrics.errorsTotal 1 ∧
      ((reqs.length : Int) < maxInt64 →
        (submitAll (NewService wc c) (reqs ++ [p])).1.metrics.errorsTotal
          = (submitAll (NewService wc c) reqs).1.metrics.errorsTotal + 1)) := by
  obtain ⟨hcap, hq, hqd, hrt, het, hst, hbody⟩ := submit_invariant wc c reqs hvalid
  refine ⟨hst, hbody, hq, hqd, hrt, het, ?_, ?_⟩
  · intro hlen
    unfold maxInt64 at hlen
    have r1 : InInt64 ((min reqs.length c : Nat) : Int) := by
      unfold InInt64 minInt64 maxInt64
      omega
    have r2 : InInt64 ((reqs.length - min reqs.length c : Nat) : Int) := by
      unfold InInt64 minInt64 maxInt64
      omega
    rw [hqd, hrt, het, wrap64_eq_self r1, wrap64_eq_self r2]
    exact ⟨rfl, rfl, rfl⟩
  · intro p hv hc
    have hfull : (submitAll (NewService wc c) reqs).1.queueCap
        ≤ (submitAll (NewService wc c) reqs).1.queue.length := by
      rw [hq, hcap]; omega
    rw [submitAll_concat, ingest_reject (submitAll (NewService wc c) reqs).1 p.1 p.2 hv hfull]
    refine ⟨rfl, rfl, rfl, rfl, rfl, ?_⟩
    intro hlt
    dsimp only
    apply add64_eq_add
    rw [het]
    unfold maxInt64 at hlt
    have r2 : InInt64 ((reqs.length - min reqs.length c : Nat) : Int) := by
      unfold InInt64 minInt64 maxInt64
      omega
    rw [wrap64_eq_self r2]
    unfold InInt64 minInt64 maxInt64
    omega

/-- C4, the scenario capacity 1, no workers, two submissions for distinct bot ids:
the first is accepted (202), the second rejected (429, "Queue full"); one message is
queued, `queueDepth = 1`, `requestsTotal = 1`, `errorsTotal = 1`. -/
theorem submit_backpressure_witness :
    (submitAll (NewService 0 1) [post "bot-a", post "bot-b"]).2.map Response.status
      = [202, 429] ∧
    (submitAll (NewService 0 1) [post "bot-a", post "bot-b"]).1.queue.length = 1 ∧
    (submitAll (NewService 0 1) [post "bot-a", post "bot-b"]).1.metrics.queueDepth = 1 ∧
    (submitAll (NewService 0 1) [post "bot-a", post "bot-b"]).1.metrics.requestsTotal = 1 ∧
    (submitAll (NewService 0 1) [post "bot-a", post "bot-b"]).1.metrics.errorsTotal = 1 ∧
    (submitAll (NewService 0 1) ([post "bot-a"] ++ [post "bot-b"])).2
      = (submitAll (NewService 0 1) [post "bot-a"]).2
        ++ [{ status := 429, body := "Queue full\n" }] :=
  ⟨(submit_backpressure 0 1 [post "bot-a", post "bot-b"] (by decide)).1,
   (submit_backpressure 0 1 [post "bot-a", post "bot-b"] (by decide)).2.2.1,
   ((submit_backpressure 0 1 [post "bot-a", post "bot-b"] (by decide)).2.2.2.2.2.2.1
      (by decide)).1,
   ((submit_backpressure 0 1 [post "bot-a", post "bot-b"] (by decide)).2.2.2.2.2.2.1
      (by decide)).2.1,
   ((submit_backpressure 0 1 [post "bot-a", post "bot-b"] (by decide)).2.2.2.2.2.2.1
      (by decide)).2.2,
   ((submit_backpressure 0 1 [post "bot-a"] (by decide)).2.2.2.2.2.2.2
      (post "bot-b") (by decide) (by decide)).1⟩

/-- C5: for every service state (in particular every circuit-breaker state), every
message and every clock reading (hence every outcome of the enrichment step), one
processing cycle performs exactly one `Add(1)` on `nlpCallsTotal` and exactly one on
`dbWritesTotal` (the write step runs unconditionally, also when the breaker refuses
the call); the error it acts on is the one `CircuitBreaker.Call` returned;
`nlpErrorsTotal` is incremented by one if and only if that error is not nil and is
unchanged otherwise; when `Call` returned an error the record passed to the write
step has sentiment "unknown" and score 0; the record written always carries the
message.  As integers the increments are `+ 1` whenever the sum fits in `int64`. -/
theorem process_cycle_metrics (s : Service) (msg : Message) (clk : ProcessClock) :
    (processMessage s msg clk).service.metrics.nlpCallsTotal
      = add64 s.metrics.nlpCallsTotal 1 ∧
    (processMessage s msg clk).service.metrics.dbWritesTotal
      = add64 s.metrics.dbWritesTotal 1 ∧
    (processMessage s msg clk).err
      = (Call s.cb clk.cbSince clk.cbNow (simulateNLPCall clk.nlpNano)
          { Message := msg, NLPSentiment := "", NLPScore := 0 }).err ∧
    ((processMessage s msg clk).service.metrics.nlpErrorsTotal
        = add64 s.metrics.nlpErrorsTotal 1 ↔ (processMessage s msg clk).err ≠ none) ∧
    ((processMessage s msg clk).err = none →
      (processMessage s msg clk).service.metrics.nlpErrorsTotal = s.metrics.nlpErrorsTotal) ∧
    ((processMessage s msg clk).err ≠ none →
      (processMessage s msg clk).written.NLPSentiment = "unknown" ∧
      (processMessage s msg clk).written.NLPScore = 0) ∧
    (processMessage s msg clk).written.Message = msg ∧
    (InInt64 (s.metrics.nlpCallsTotal + 1) →
      (processMessage s msg clk).service.metrics.nlpCallsTotal
        = s.metrics.nlpCallsTotal + 1) ∧
    (InInt64 (s.metrics.dbWritesTotal + 1) →
      (processMessage s msg clk).service.metrics.dbWritesTotal
        = s.metrics.dbWritesTotal + 1) ∧
    (InInt64 (s.metrics.nlpErrorsTotal + 1) → (processMessage s msg clk).err ≠ none →
      (processMessage s msg clk).service.metrics.nlpErrorsTotal
        = s.metrics.nlpErrorsTotal + 1) := by
  have hworld := Call_world_cases s.cb clk.cbSince clk.cbNow (simulateNLPCall clk.nlpNano)
    ({ Message := msg, NLPSentiment := "", NLPScore := 0 } : ProcessedMessage)
  have hmsg : (Call s.cb clk.cbSince clk.cbNow (simulateNLPCall clk.nlpNano)
      ({ Message := msg, NLPSentiment := "", NLPScore := 0 } : ProcessedMessage)).world.Message
        = msg := by
    rcases hworld with h | h
    · rw [h]
    · rw [h, simulateNLPCall_message]
  rcases hc : Call s.cb clk.cbSince clk.cbNow (simulateNLPCall clk.nlpNano)
    ({ Message := msg, NLPSentiment := "", NLPScore := 0 } : ProcessedMessage)
    with ⟨cb1, err, world⟩
  rw [hc] at hmsg
  simp only at hmsg
  cases err with
  | none =>
    rw [processMessage_ok s msg clk cb1 world hc]
    dsimp only
    refine ⟨rfl, rfl, rfl, ?_, fun _ => rfl, fun h => absurd rfl h, hmsg,
      fun h => add64_eq_add h, fun h => add64_eq_add h, fun _ h => absurd rfl h⟩
    constructor
    · intro h
      exact absurd h.symm (add64_one_ne _)
    · intro h
      exact absurd rfl h
  | some e =>
    rw [processMessage_err s msg clk cb1 e world hc]
    dsimp only
    refine ⟨rfl, rfl, rfl, ?_, fun h => Option.noConfusion h, fun _ => ⟨rfl, rfl⟩, hmsg,
      fun h => add64_eq_add h, fun h => add64_eq_add h, fun h _ => add64_eq_add h⟩
    constructor
    · intro _ h
      exact Option.noConfusion h
    · intro _
      rfl

/-- C5, on a fresh service: when the enrichment step fails (clock reading 3) the
cycle counts one NLP call, one NLP error and one write and writes sentiment
"unknown" with score 0; when it succeeds (clock reading 7) it counts one NLP call,
no NLP error and one write; and on a service whose breaker is Open and refuses the
call, the write is still counted. -/
theorem process_cycle_metrics_witness :
    (processMessage { NewService 4 100 with
        cb := { NewCircuitBreaker 50 30000000000 with
          state := StateOpen, failures := 50, lastFailTime := 0 } }
      ⟨"bot", "hello", 1⟩ ⟨1000, 7, 1000⟩).err = some "circuit breaker open" ∧
    (processMessage { NewService 4 100 with
        cb := { NewCircuitBreaker 50 30000000000 with
          state := StateOpen, failures := 50, lastFailTime := 0 } }
      ⟨"bot", "hello", 1⟩ ⟨1000, 7, 1000⟩).service.metrics.dbWritesTotal = 0 + 1 ∧
    (processMessage (NewService 4 100) ⟨"bot", "hello", 1⟩ ⟨0, 3, 0⟩).service.metrics.nlpCallsTotal
      = 0 + 1 ∧
    (processMessage (NewService 4 100) ⟨"bot", "hello", 1⟩ ⟨0, 3, 0⟩).service.metrics.nlpErrorsTotal
      = 0 + 1 ∧
    (processMessage (NewService 4 100) ⟨"bot", "hello", 1⟩ ⟨0, 3, 0⟩).written.NLPSentiment
      = "unknown" ∧
    (processMessage (NewService 4 100) ⟨"bot", "hello", 1⟩ ⟨0, 7, 0⟩).service.metrics.dbWritesTotal
      = 0 + 1 ∧
    (processMessage (NewService 4 100) ⟨"bot", "hello", 1⟩ ⟨0, 7, 0⟩).service.metrics.nlpErrorsTotal
      = 0 :=
  ⟨by decide,
   (process_cycle_metrics { NewService 4 100 with
        cb := { NewCircuitBreaker 50 30000000000 with
          state := StateOpen, failures := 50, lastFailTime := 0 } }
      ⟨"bot", "hello", 1⟩ ⟨1000, 7, 1000⟩).2.2.2.2.2.2.2.2.1 (by decide),
   (process_cycle_metrics (NewService 4 100) ⟨"bot", "hello", 1⟩ ⟨0, 3, 0⟩).2.2.2.2.2.2.2.1
      (by decide),
   (process_cycle_metrics (NewService 4 100) ⟨"bot", "hello", 1⟩ ⟨0, 3, 0⟩).2.2.2.2.2.2.2.2.2
      (by decide) (by decide),
   ((process_cycle_metrics (NewService 4 100) ⟨"bot", "hello", 1⟩ ⟨0, 3, 0⟩).2.2.2.2.2.1
      (by decide)).1,
   (process_cycle_metrics (NewService 4 100) ⟨"bot", "hello", 1⟩ ⟨0, 7, 0⟩).2.2.2.2.2.2.2.2.1
      (by decide),
   (process_cycle_metrics (NewService 4 100) ⟨"bot", "hello", 1⟩ ⟨0, 7, 0⟩).2.2.2.2.1
      (by decide)⟩

/-- C8 (amended): for every service state, `MetricsHandler` produces a JSON object
with exactly the keys `requests_total`, `errors_total`, `nlp_calls_total`,
`nlp_errors_total`, `db_writes_total`, `queue_depth`, `active_workers`,
`avg_latency_ms` and `circuit_breaker_state`; the first seven hold the current values
of the corresponding counters, `avg_latency_ms` holds `GetAvgLatency()` and
`circuit_breaker_state` holds the breaker's stored state, encoded 0 = Closed,
1 = Open, 2 = Half-Open.  (The cumulative latency and the latency sample count have
no key of their own.) -/
theorem metrics_handler_object (s : Service) :
    ∃ obj avg, MetricsHandler s = some obj ∧ s.metrics.GetAvgLatency = some avg ∧
      obj.map Prod.fst = ["requests_total", "errors_total", "nlp_calls_total",
        "nlp_errors_total", "db_writes_total", "queue_depth", "active_workers",
        "avg_latency_ms", "circuit_breaker_state"] ∧
      obj.lookup "requests_total" = some s.metrics.requestsTotal ∧
      obj.lookup "errors_total" = some s.metrics.errorsTotal ∧
      obj.lookup "nlp_calls_total" = some s.metrics.nlpCallsTotal ∧
      obj.lookup "nlp_errors_total" = some s.metrics.nlpErrorsTotal ∧
      obj.lookup "db_writes_total" = some s.metrics.dbWritesTotal ∧
      obj.lookup "queue_depth" = some s.metrics.queueDepth ∧
      obj.lookup "active_workers" = some s.metrics.activeWorkers ∧
      obj.lookup "avg_latency_ms" = some avg ∧
      obj.lookup "circuit_breaker_state" = some s.cb.state ∧
      StateClosed = 0 ∧ StateOpen = 1 ∧ StateHalfOpen = 2 := by
  rcases havg : s.metrics.GetAvgLatency with _ | avg
  · exact absurd havg (avg_latency_defined s.metrics)
  · have hobj : MetricsHandler s = some
        [ ("requests_total", s.metrics.requestsTotal),
          ("errors_total", s.metrics.errorsTotal),
          ("nlp_calls_total", s.metrics.nlpCallsTotal),
          ("nlp_errors_total", s.metrics.nlpErrorsTotal),
          ("db_writes_total", s.metrics.dbWritesTotal),
          ("queue_depth", s.metrics.queueDepth),
          ("active_workers", s.metrics.activeWorkers),
          ("avg_latency_ms", avg),
          ("circuit_breaker_state", s.cb.state) ] := by
      simp only [MetricsHandler, havg, CircuitBreaker.State]
    exact ⟨_, avg, hobj, rfl, rfl, rfl, rfl, rfl, rfl, rfl, rfl, rfl, rfl, rfl, rfl, rfl, rfl⟩

/-- C8 as stated fails: the object written for a fresh service has no key
`average_latency_ms` (the average is under `avg_latency_ms`), and the cumulative
latency is not exposed: after latencies 3, 3, 4 ms and after latencies 3, 4, 4 ms
the cumulative latency is 10 and 11 but the two objects are equal. -/
theorem metrics_handler_counterexample :
    (MetricsHandler (NewService 4 100)).map (fun obj => obj.lookup "average_latency_ms")
      = some none ∧
    (MetricsHandler (NewService 4 100)).map (fun obj => obj.lookup "avg_latency_ms")
      = some (some 0) ∧
    (recordRequests {} [3000000, 3000000, 4000000]).latencySum = 10 ∧
    (recordRequests {} [3000000, 4000000, 4000000]).latencySum = 11 ∧
    MetricsHandler { NewService 4 100 with
        metrics := recordRequests {} [3000000, 3000000, 4000000] }
      = MetricsHandler { NewService 4 100 with
        metrics := recordRequests {} [3000000, 4000000, 4000000] } := by
  decide
end ChatAnalytics
